import Mathlib

/-!
Verification of the github-gantt synchronization engine (`src/index.js`).

The program mirrors the GitHub issues of one repository into a local Realm
store of `Task` records (`processIssues`), extracts scheduling metadata from
keyword lines inside the issue bodies, tombstones records that disappeared
from the remote feed, and serves chart data (`getTaskChartData`) and issue
URL lookups over HTTP.

JavaScript strings are embedded as `List Char`; the handful of string
operations the program uses (`split('\r\n')`, `indexOf(p) == 0`,
`replace(p, '')` on the first occurrence, `trim()`, `toUpperCase()`) are
defined structurally below so that every definition evaluates by `decide`.
The Realm store is embedded as a list of `Task` records keyed by `id`
(Realm's primary-key semantics); `realm.create('Task', ..., true)` is the
keyed create-or-replace `upsert`.
-/

set_option autoImplicit false

namespace GithubGantt

/-- A JavaScript string, embedded as its character list. -/
abbrev JSStr := List Char

/-- JS `s.split('\r\n')` (line 83 of `src/index.js`): split at each
non-overlapping occurrence of the two-character sequence CR LF, scanning
left to right. -/
def splitCRLF : JSStr → List JSStr
  | [] => [[]]
  | [c] => [[c]]
  | c1 :: c2 :: rest =>
    if c1 = '\r' ∧ c2 = '\n' then [] :: splitCRLF rest
    else
      match splitCRLF (c2 :: rest) with
      | [] => [[c1]]
      | p :: ps => (c1 :: p) :: ps

/-- JS `s.indexOf(pat) == 0` — written `!s.indexOf(pat)` in the source
(lines 85, 91, 97, 114): true exactly when `pat` occurs at position 0. -/
def jsStartsWith (s pat : JSStr) : Bool :=
  pat.isPrefixOf s

/-- JS `s.replace(pat, '')` (lines 86, 92, 98, 115): remove the first
occurrence of `pat`, leaving `s` unchanged when `pat` does not occur. -/
def jsReplaceFirst : JSStr → JSStr → JSStr
  | [], _ => []
  | c :: rest, pat =>
    if pat.isPrefixOf (c :: rest) then (c :: rest).drop pat.length
    else c :: jsReplaceFirst rest pat

/-- JS whitespace for `trim()`. -/
def isJsSpace (c : Char) : Bool :=
  c == ' ' || c == '\t' || c == '\n' || c == '\r'

/-- JS `s.trim()` (line 100). -/
def jsTrim (s : JSStr) : JSStr :=
  ((s.dropWhile isJsSpace).reverse.dropWhile isJsSpace).reverse

/-- JS `s.toUpperCase()` (line 107). -/
def jsToUpper (s : JSStr) : JSStr :=
  s.map Char.toUpper

/-- Split at every occurrence of a single separator character. -/
def splitOnChar (sep : Char) : JSStr → List JSStr
  | [] => [[]]
  | c :: rest =>
    if c == sep then [] :: splitOnChar sep rest
    else
      match splitOnChar sep rest with
      | [] => [[c]]
      | p :: ps => (c :: p) :: ps

/-- Read a nonempty all-digit string as a natural number. -/
def digitsToNat (s : JSStr) : Option Nat :=
  if s ≠ [] && s.all Char.isDigit then
    some (s.foldl (fun n c => n * 10 + (c.toNat - 48)) 0)
  else none

/-- Modelled from the spec: the date parsing performed by the JS built-in
`new Date(string)` together with `utilities.isDate` (`utilities.js` is not
under `src/`; §4.1: "parse the remainder as a calendar date; if parsing
fails (not a valid date), silently discard"). Dates are represented as the
integer `y*10000 + m*100 + d` of an ISO `yyyy-mm-dd` string (which preserves
calendar order); any other string is an invalid date (`none`). -/
def parseDate (s : JSStr) : Option Int :=
  match splitOnChar '-' (jsTrim s) with
  | [y, m, d] =>
    match digitsToNat y, digitsToNat m, digitsToNat d with
    | some a, some b, some c =>
      if 1 ≤ b && b ≤ 12 && 1 ≤ c && c ≤ 31 then
        some ((a * 10000 + b * 100 + c : Nat) : Int)
      else none
    | _, _, _ => none
  | _ => none

/-- Modelled from the spec: `utilities.sanitizeFloat` (`utilities.js` is not
under `src/`; §4.1: "sanitize the remainder into a bounded floating-point
value (invalid input yields unset)"). An all-digit remainder is read and
clamped into [0,1]; anything else is unset. -/
def sanitizeFloat (s : JSStr) : Option Rat :=
  match digitsToNat (jsTrim s) with
  | some n => some (min 1 (n : Rat))
  | none => none

/-- Modelled from the spec: `utilities.sanitizeStringNonNull` (`utilities.js`
is not under `src/`; §3: "nullable → stored as empty string", §4.3
"null-to-empty-string sanitization for optional text fields"). -/
def sanitizeStringNonNull : Option JSStr → JSStr
  | none => []
  | some s => s

/-- The four keyword prefixes from `config/config.js` (lines 85, 91, 97,
114 read `config.START_DATE_STRING` etc.). -/
structure Config where
  START_DATE_STRING : JSStr
  DUE_DATE_STRING : JSStr
  LABEL_STRING : JSStr
  PROGRESS_STRING : JSStr
deriving DecidableEq, Repr

/-- Modelled from the spec: `config/config.js` is not under `src/`; §4.1
says each prefix is "a configured literal string". Concrete sample values
used for concrete evaluations; all general theorems quantify over `Config`. -/
def defaultConfig : Config :=
  { START_DATE_STRING := "Start Date:".toList
    DUE_DATE_STRING := "Due Date:".toList
    LABEL_STRING := "Label:".toList
    PROGRESS_STRING := "Progress:".toList }

/-- A label attached to a remote issue (`issue.labels[i]`, lines 101-110):
a name and an optionally defined color (`utilities.isString(aLabel.color)`
guards the color, so `color` is modelled as optional). -/
structure GHLabel where
  name : JSStr
  color : Option JSStr
deriving DecidableEq, Repr

/-- One item of the remote issue feed (`issues.items[index]`, line 74).
`createdAt` is embedded as the timestamp the JS `new Date(issue.createdAt)`
(line 75) denotes. `labels` is optional because the source guards it with
`utilities.isArray(issue.labels)` (line 101). -/
structure Issue where
  id : Nat
  title : Option JSStr
  body : Option JSStr
  url : Option JSStr
  htmlUrl : Option JSStr
  number : Nat
  state : JSStr
  createdAt : Int
  labels : Option (List GHLabel)
deriving DecidableEq, Repr

/-- A stored `Task` record (the Realm schema, lines 11-57). The optional
hierarchy fields `type`, `parent`, `level`, `open` of the schema are never
written by any code path of the program and are omitted. -/
structure Task where
  text : JSStr
  start_date : Int
  duration : Nat
  id : Nat
  body : JSStr
  url : JSStr
  html_url : JSStr
  number : Nat
  state : JSStr
  isDeleted : Bool
  end_date : Option Int
  label : Option JSStr
  color : Option JSStr
  progress : Option Rat
deriving DecidableEq, Repr

/-- The working metadata of the extraction loop: the mutable locals
`startDate`, `dueDate`, `label`, `color`, `progress` of lines 75-79. -/
structure Meta where
  startDate : Int
  dueDate : Option Int
  label : Option JSStr
  color : Option JSStr
  progress : Option Rat
deriving DecidableEq, Repr

/-- The label-keyword scan over `issue.labels` (lines 101-111): every label
whose name equals the trimmed keyword remainder sets `label`, and also sets
`color` when its color is defined. -/
def scanLabels (labelString : JSStr) (m : Meta) (ls : List GHLabel) : Meta :=
  ls.foldl
    (fun m' aLabel =>
      if aLabel.name == labelString then
        let m'' := { m' with label := some aLabel.name }
        match aLabel.color with
        | some c => { m'' with color := some ('#' :: jsToUpper c) }
        | none => m''
      else m')
    m

/-- The body of the per-line keyword loop (lines 84-117): four independent
prefix tests against the line, each updating the working metadata. -/
def processLine (cfg : Config) (labels : Option (List GHLabel)) (m : Meta)
    (line : JSStr) : Meta :=
  let m1 :=
    if jsStartsWith line cfg.START_DATE_STRING then
      match parseDate (jsReplaceFirst line cfg.START_DATE_STRING) with
      | some d => { m with startDate := d }
      | none => m
    else m
  let m2 :=
    if jsStartsWith line cfg.DUE_DATE_STRING then
      match parseDate (jsReplaceFirst line cfg.DUE_DATE_STRING) with
      | some d => { m1 with dueDate := some d }
      | none => m1
    else m1
  let m3 :=
    if jsStartsWith line cfg.LABEL_STRING then
      let labelString := jsTrim (jsReplaceFirst line cfg.LABEL_STRING)
      match labels with
      | some ls => scanLabels labelString m2 ls
      | none => m2
    else m2
  if jsStartsWith line cfg.PROGRESS_STRING then
    { m3 with progress := sanitizeFloat (jsReplaceFirst line cfg.PROGRESS_STRING) }
  else m3

/-- Metadata extraction for one issue (lines 75-118): initial values from
the issue, then the keyword scan over the CR LF-split body lines, skipped
entirely when the body is null. -/
def extractMeta (cfg : Config) (issue : Issue) : Meta :=
  let init : Meta :=
    { startDate := issue.createdAt, dueDate := none, label := none
      color := none, progress := none }
  match issue.body with
  | none => init
  | some b => (splitCRLF b).foldl (processLine cfg issue.labels) init

/-- The record written by `realm.create('Task', {...}, true)` for one issue
(lines 120-137). -/
def mkTask (cfg : Config) (issue : Issue) : Task :=
  let m := extractMeta cfg issue
  { text := sanitizeStringNonNull issue.title
    start_date := m.startDate
    duration := 1
    id := issue.id
    body := sanitizeStringNonNull issue.body
    url := sanitizeStringNonNull issue.url
    html_url := sanitizeStringNonNull issue.htmlUrl
    number := issue.number
    state := issue.state
    isDeleted := false
    end_date := m.dueDate
    label := m.label
    color := m.color
    progress := m.progress }

/-- The Realm `Task` collection, keyed by the primary key `id`. -/
abbrev Store := List Task

/-- `realm.objects('Task').map(task => task.id)` (lines 150-152). -/
def listIds (s : Store) : List Nat :=
  s.map Task.id

/-- `realm.objectForPrimaryKey('Task', i)` (lines 161, 215). -/
def lookup (s : Store) (i : Nat) : Option Task :=
  s.find? (fun t => t.id == i)

/-- `realm.create('Task', {...}, true)` (lines 121-136): create-or-replace
keyed on the primary key `id`. -/
def upsert (s : Store) (t : Task) : Store :=
  if s.any (fun u => u.id == t.id) then
    s.map (fun u => if u.id == t.id then t else u)
  else s ++ [t]

/-- The per-issue upsert loop over one list of issues (lines 73-140). -/
def processAll (cfg : Config) (s : Store) (issues : List Issue) : Store :=
  issues.foldl (fun st i => upsert st (mkTask cfg i)) s

/-- The tombstone write of lines 158-164 as the code executes it on ids
that are all present: for each listed id in turn, set `isDeleted = true` on
the record with that primary key. -/
def markDeletedT (s : Store) (ids : List Nat) : Store :=
  ids.foldl
    (fun st i => st.map (fun t => if t.id == i then { t with isDeleted := true } else t))
    s

/-- The tombstone write of lines 158-164 on an arbitrary id list: for an id
with no record, `realm.objectForPrimaryKey` yields `undefined` and
`task.isDeleted = true` throws, cancelling the enclosing `realm.write`
transaction — embedded as `none` (no resulting store). -/
def markDeleted (s : Store) (ids : List Nat) : Option Store :=
  ids.foldl
    (fun acc i =>
      acc.bind fun st =>
        match lookup st i with
        | some _ =>
          some (st.map (fun t => if t.id == i then { t with isDeleted := true } else t))
        | none => none)
    (some s)

/-- One completed sync pass over the flattened issue feed (the whole of
`processIssues`, lines 68-168, in the case where every page was fetched):
upsert every issue, then tombstone the stored ids absent from the
accumulated `idArray` (`oldIds.filter(el => idArray.indexOf(el) < 0)`,
lines 148-164). -/
def syncPass (cfg : Config) (s : Store) (issues : List Issue) : Store :=
  markDeletedT (processAll cfg s issues)
    ((listIds (processAll cfg s issues)).filter
      (fun i => !(decide (i ∈ issues.map Issue.id))))

/-- One page of the remote feed: its items and its `nextPageUrl`
(`utilities.isString(issues.nextPageUrl)`, line 142, decides whether a
further fetch happens). -/
structure Page where
  items : List Issue
  nextPageUrl : Option JSStr
deriving DecidableEq, Repr

/-- The outcome of one `issues.nextPage.fetch()` (line 143): a resolved
page, or a rejection. -/
inductive FetchResult where
  | ok : Page → FetchResult
  | err : FetchResult
deriving DecidableEq, Repr

/-- The observable end state of one `processIssues` run: `completed s`
when the no-more-pages branch ran (reconciliation done, `completion()`
called), `aborted s` when a page fetch failed or never resolved — the
source chains `.then` with no rejection handler (lines 143-146), so on a
rejected fetch nothing further runs: the upserts already committed stay,
and neither reconciliation nor `completion()` happens. -/
inductive Outcome where
  | completed : Store → Outcome
  | aborted : Store → Outcome
deriving DecidableEq, Repr

/-- The recursive `processIssues` (lines 68-168) over the current page and
the results of the future page fetches: upsert the page's items, extend
`idArray`, then either recurse into the next fetched page, abort on a
failed fetch, or reconcile and complete. -/
def runSync (cfg : Config) : Store → List Nat → Page → List FetchResult → Outcome
  | s, seen, p, rest =>
    if p.nextPageUrl.isSome then
      match rest with
      | FetchResult.ok q :: rest' =>
        runSync cfg (processAll cfg s p.items) (seen ++ p.items.map Issue.id) q rest'
      | FetchResult.err :: _ => Outcome.aborted (processAll cfg s p.items)
      | [] => Outcome.aborted (processAll cfg s p.items)
    else
      Outcome.completed
        (markDeletedT (processAll cfg s p.items)
          ((listIds (processAll cfg s p.items)).filter
            (fun i => !(decide (i ∈ seen ++ p.items.map Issue.id)))))

/-- The issues of a run that completes (every needed fetch resolves up to a
page with no `nextPageUrl`); `none` when the run aborts. -/
def collectRun : Page → List FetchResult → Option (List Issue)
  | p, rest =>
    if p.nextPageUrl.isSome then
      match rest with
      | FetchResult.ok q :: rest' => (collectRun q rest').map (p.items ++ ·)
      | FetchResult.err :: _ => none
      | [] => none
    else some p.items

/-- The issues committed before an aborted run stops (the pages processed
up to and including the one whose next fetch fails). -/
def collectPrefix : Page → List FetchResult → List Issue
  | p, rest =>
    if p.nextPageUrl.isSome then
      match rest with
      | FetchResult.ok q :: rest' => p.items ++ collectPrefix q rest'
      | FetchResult.err :: _ => p.items
      | [] => p.items
    else p.items

/-- The chart row filter of line 171:
`isDeleted = false AND state = "open" AND end_date != null`. -/
def chartPred (t : Task) : Bool :=
  t.isDeleted == false && t.state == "open".toList && t.end_date.isSome

/-- Realm's ascending order on the optional `label` column: null sorts
before every string, strings are ordered lexicographically. -/
def optStrLe : Option JSStr → Option JSStr → Prop
  | none, _ => True
  | some _, none => False
  | some x, some y => x ≤ y

instance : (a b : Option JSStr) → Decidable (optStrLe a b)
  | none, _ => isTrue trivial
  | some _, none => isFalse (fun h => h)
  | some x, some y => inferInstanceAs (Decidable (x ≤ y))

/-- `.sorted('label')` comparison (line 171): ascending by `label`. -/
def labelAsc (a b : Task) : Prop :=
  optStrLe a.label b.label

instance : DecidableRel labelAsc := fun a b =>
  inferInstanceAs (Decidable (optStrLe a.label b.label))

/-- `.sorted('start_date', true)` comparison (line 171): descending by
`start_date`. -/
def dateDesc (a b : Task) : Prop :=
  b.start_date ≤ a.start_date

instance : DecidableRel dateDesc := fun a b =>
  inferInstanceAs (Decidable (b.start_date ≤ a.start_date))

/-- The query of line 171, `realm.objects('Task').filtered('isDeleted =
false AND state = "open" AND end_date != null').sorted('start_date',
true).sorted('label')`: filter, stable sort descending by `start_date`,
then stable sort ascending by `label` (Realm's sort is stable, so the
second sort keeps the date order inside each label group). -/
def queryForChart (s : Store) : List Task :=
  ((s.filter chartPred).insertionSort dateDesc).insertionSort labelAsc

/-- The `/getIssueURL` handler (lines 213-217): look the task up by primary
key and send its `html_url`; for an absent id the lookup yields `undefined`
and the field access throws, surfaced as an error result. -/
def getIssueURL (s : Store) (taskId : Nat) : Except Unit JSStr :=
  match lookup s taskId with
  | some task => Except.ok task.html_url
  | none => Except.error ()

/-! ### Concrete sample data, used for concrete evaluations -/

/-- A minimal stored record with the given id. -/
def sampleTask (n : Nat) : Task :=
  { text := [], start_date := 0, duration := 1, id := n, body := [], url := []
    html_url := ['u'], number := 0, state := "open".toList, isDeleted := false
    end_date := none, label := none, color := none, progress := none }

/-- A minimal feed issue with the given id. -/
def sampleIssue (n : Nat) : Issue :=
  { id := n, title := none, body := none, url := none, htmlUrl := none
    number := 0, state := "open".toList, createdAt := 0, labels := none }

/-- A tombstoned record with id 5. -/
def deletedTask5 : Task :=
  { sampleTask 5 with isDeleted := true }

/-- Tasks and a store for concrete chart-query evaluations. -/
def chartTaskA : Task :=
  { sampleTask 31 with label := some "x".toList, start_date := 5, end_date := some 40 }

/-- A second task in the same label group with a later start date. -/
def chartTaskB : Task :=
  { sampleTask 32 with label := some "x".toList, start_date := 10, end_date := some 41 }

/-- A task in a later label group with an earlier start date. -/
def chartTaskC : Task :=
  { sampleTask 33 with label := some "y".toList, start_date := 1, end_date := some 42 }

/-- A closed task, which the chart query must exclude. -/
def chartTaskD : Task :=
  { sampleTask 34 with state := "closed".toList, end_date := some 43 }

/-- A store mixing the chart tasks in scrambled order. -/
def chartStore : Store :=
  [chartTaskA, chartTaskD, chartTaskB, chartTaskC]

/-- An issue whose body carries a label keyword matching a label entry that
has no defined color. -/
def issueLabelNoColor : Issue :=
  { sampleIssue 21 with
    body := some "Label:bug".toList
    labels := some [{ name := "bug".toList, color := none }] }

/-- An issue whose body carries a label keyword matching a label entry with
a defined color. -/
def issueLabelColor : Issue :=
  { sampleIssue 22 with
    body := some "Label:bug".toList
    labels := some [{ name := "bug".toList, color := some "ff00aa".toList }] }

/-- An issue whose body is exactly one due-date keyword line. -/
def issueDueAtStart : Issue :=
  { sampleIssue 23 with body := some "Due Date:2020-01-02".toList }

/-- An issue whose body contains the due-date keyword text mid-line only. -/
def issueDueMid : Issue :=
  { sampleIssue 24 with body := some "x Due Date:2020-01-02".toList }

/-- An issue whose due-date line is preceded by a CR LF line break. -/
def issueDueCRLF : Issue :=
  { sampleIssue 25 with body := some "x\r\nDue Date:2020-01-02".toList }

/-- The same issue body with a bare LF instead of the CR LF. -/
def issueDueLF : Issue :=
  { sampleIssue 26 with body := some "x\nDue Date:2020-01-02".toList }

/-! ### Store lemmas -/

theorem mkTask_id (cfg : Config) (issue : Issue) : (mkTask cfg issue).id = issue.id := rfl

theorem mkTask_isDeleted (cfg : Config) (issue : Issue) :
    (mkTask cfg issue).isDeleted = false := rfl

theorem lookup_id_of_eq_some {s : Store} {j : Nat} {t : Task}
    (h : lookup s j = some t) : t.id = j := by
  have hp := List.find?_some h
  simpa using hp

theorem mem_listIds {s : Store} {j : Nat} : j ∈ listIds s ↔ ∃ t ∈ s, t.id = j := by
  simp [listIds]

theorem lookup_isSome_iff {s : Store} {j : Nat} : (lookup s j).isSome ↔ j ∈ listIds s := by
  simp [lookup, listIds, List.find?_isSome]

theorem lookup_map_of_id {f : Task → Task} (hf : ∀ t, (f t).id = t.id) (s : Store)
    (j : Nat) : lookup (s.map f) j = (lookup s j).map f := by
  induction s with
  | nil => rfl
  | cons t ts ih =>
    by_cases h : t.id = j
    · simp [lookup, hf, h]
    · simp only [lookup, List.map_cons] at ih ⊢
      rw [List.find?_cons_of_neg _ (by simp [hf, h]), List.find?_cons_of_neg _ (by simp [h])]
      exact ih

theorem listIds_map_of_id {f : Task → Task} (hf : ∀ t, (f t).id = t.id) (s : Store) :
    listIds (s.map f) = listIds s := by
  simp only [listIds, List.map_map]
  exact List.map_congr_left (fun t _ => hf t)

theorem lookup_upsert (s : Store) (t : Task) (j : Nat) :
    lookup (upsert s t) j = if t.id = j then some t else lookup s j := by
  unfold upsert
  by_cases hs : s.any (fun u => u.id == t.id)
  · rw [if_pos hs,
      lookup_map_of_id (f := fun u => if u.id == t.id then t else u)
        (fun u => by by_cases hu : u.id = t.id <;> simp [hu])]
    by_cases h : t.id = j
    · subst h
      have hmem : t.id ∈ listIds s := by
        rcases List.any_eq_true.mp hs with ⟨u, hu, hid⟩
        exact mem_listIds.mpr ⟨u, hu, by simpa using hid⟩
      rcases Option.isSome_iff_exists.mp (lookup_isSome_iff.mpr hmem) with ⟨u, hu⟩
      have hid := lookup_id_of_eq_some hu
      simp [hu, hid]
    · rw [if_neg h]
      cases hl : lookup s j with
      | none => rfl
      | some u =>
        have hid := lookup_id_of_eq_some hl
        have hne : u.id ≠ t.id := by
          rw [hid]
          exact fun hc => h hc.symm
        simp [hne]
  · rw [if_neg hs]
    have hnone : s.find? (fun u => u.id == t.id) = none := by
      rw [List.find?_eq_none]
      intro x hx hbeq
      exact hs (List.any_eq_true.mpr ⟨x, hx, hbeq⟩)
    by_cases h : t.id = j
    · subst h
      simp [lookup, List.find?_append, hnone]
    · simp [lookup, List.find?_append, h, Option.or_none]

theorem listIds_upsert (s : Store) (t : Task) :
    listIds (upsert s t) =
      if t.id ∈ listIds s then listIds s else listIds s ++ [t.id] := by
  unfold upsert
  by_cases hs : s.any (fun u => u.id == t.id)
  · have hm : t.id ∈ listIds s := by
      rcases List.any_eq_true.mp hs with ⟨u, hu, hid⟩
      exact mem_listIds.mpr ⟨u, hu, by simpa using hid⟩
    rw [if_pos hs, if_pos hm]
    exact listIds_map_of_id (fun u => by by_cases hu : u.id = t.id <;> simp [hu]) s
  · have hm : t.id ∉ listIds s := by
      intro hmem
      rcases mem_listIds.mp hmem with ⟨u, hu, hid⟩
      exact hs (List.any_eq_true.mpr ⟨u, hu, by simp [hid]⟩)
    rw [if_neg hs, if_neg hm]
    simp [listIds]

theorem processAll_cons (cfg : Config) (s : Store) (i : Issue) (issues : List Issue) :
    processAll cfg s (i :: issues) = processAll cfg (upsert s (mkTask cfg i)) issues := rfl

theorem processAll_append (cfg : Config) (s : Store) (l₁ l₂ : List Issue) :
    processAll cfg s (l₁ ++ l₂) = processAll cfg (processAll cfg s l₁) l₂ := by
  simp [processAll, List.foldl_append]

theorem lookup_processAll (cfg : Config) (issues : List Issue) (s : Store) (j : Nat) :
    lookup (processAll cfg s issues) j =
      match issues.reverse.find? (fun i => i.id == j) with
      | some i => some (mkTask cfg i)
      | none => lookup s j := by
  induction issues generalizing s with
  | nil => rfl
  | cons i is ih =>
    rw [processAll_cons, ih, List.reverse_cons, List.find?_append]
    cases hfind : is.reverse.find? (fun i' => i'.id == j) with
    | some i' => rfl
    | none =>
      rw [lookup_upsert]
      by_cases h : i.id = j
      · simp [h, mkTask_id]
      · simp [h, mkTask_id]

theorem mem_listIds_processAll (cfg : Config) (issues : List Issue) (s : Store) {j : Nat}
    (h : j ∈ listIds s) : j ∈ listIds (processAll cfg s issues) := by
  induction issues generalizing s with
  | nil => exact h
  | cons i is ih =>
    rw [processAll_cons]
    apply ih
    rw [listIds_upsert]
    split
    · exact h
    · exact List.mem_append_left _ h

theorem listIds_processAll_of_sub (cfg : Config) (issues : List Issue) (s : Store)
    (h : ∀ i ∈ issues, i.id ∈ listIds s) :
    listIds (processAll cfg s issues) = listIds s := by
  induction issues generalizing s with
  | nil => rfl
  | cons i is ih =>
    rw [processAll_cons, ih]
    · rw [listIds_upsert, if_pos (by simpa [mkTask_id] using h i (by simp))]
    · intro i' hi'
      rw [listIds_upsert, if_pos (by simpa [mkTask_id] using h i (by simp))]
      exact h i' (by simp [hi'])

theorem markDeletedT_cons (s : Store) (i : Nat) (ids : List Nat) :
    markDeletedT s (i :: ids) =
      markDeletedT (s.map (fun t => if t.id == i then { t with isDeleted := true } else t))
        ids := rfl

theorem setDeleted_idem (t : Task) :
    ({ { t with isDeleted := true } with isDeleted := true } : Task)
      = { t with isDeleted := true } := rfl

theorem lookup_markDeletedT (ids : List Nat) (s : Store) (j : Nat) :
    lookup (markDeletedT s ids) j =
      if j ∈ ids then (lookup s j).map (fun t => { t with isDeleted := true })
      else lookup s j := by
  induction ids generalizing s with
  | nil => simp [markDeletedT]
  | cons i is ih =>
    rw [markDeletedT_cons, ih,
      lookup_map_of_id (fun t => by by_cases ht : t.id = i <;> simp [ht])]
    cases hl : lookup s j with
    | none => simp
    | some t =>
      have hid := lookup_id_of_eq_some hl
      by_cases h : j = i
      · subst h
        by_cases hmem : j ∈ is
        · simp [hmem, hid, setDeleted_idem]
        · simp [hmem, hid]
      · have hne : ¬ t.id = i := by
          rw [hid]
          exact h
        by_cases hmem : j ∈ is
        · simp [hmem, hne, h]
        · simp [hmem, hne, h]

theorem listIds_markDeletedT (ids : List Nat) (s : Store) :
    listIds (markDeletedT s ids) = listIds s := by
  induction ids generalizing s with
  | nil => rfl
  | cons i is ih =>
    rw [markDeletedT_cons, ih,
      listIds_map_of_id (fun t => by by_cases ht : t.id = i <;> simp [ht])]

theorem reverse_find?_eq_none_iff (issues : List Issue) (j : Nat) :
    issues.reverse.find? (fun i => i.id == j) = none ↔ j ∉ issues.map Issue.id := by
  rw [List.find?_eq_none]
  constructor
  · intro h hmem
    rcases List.mem_map.mp hmem with ⟨i, hi, hij⟩
    exact h i (List.mem_reverse.mpr hi) (by simp [hij])
  · intro h i hi hbeq
    exact h (List.mem_map.mpr ⟨i, List.mem_reverse.mp hi, by simpa using hbeq⟩)

/-- The master characterization of one completed sync pass: an id seen in
the feed ends with the full authoritative record of its last feed
occurrence, and an id not seen keeps its previous record with the deleted
flag set. -/
theorem lookup_syncPass (cfg : Config) (s : Store) (issues : List Issue) (j : Nat) :
    lookup (syncPass cfg s issues) j =
      match issues.reverse.find? (fun i => i.id == j) with
      | some i => some (mkTask cfg i)
      | none => (lookup s j).map (fun t => { t with isDeleted := true }) := by
  unfold syncPass
  rw [lookup_markDeletedT, lookup_processAll]
  cases hfind : issues.reverse.find? (fun i => i.id == j) with
  | some i =>
    have hseen : j ∈ issues.map Issue.id := by
      have hmem : i ∈ issues := by
        simpa using List.mem_of_find?_eq_some hfind
      have hij : i.id = j := by simpa using List.find?_some hfind
      exact List.mem_map.mpr ⟨i, hmem, hij⟩
    have hdead : j ∉ (listIds (processAll cfg s issues)).filter
        (fun i' => !(decide (i' ∈ issues.map Issue.id))) := by
      intro hj
      have hc := (List.mem_filter.mp hj).2
      rw [Bool.not_eq_true', decide_eq_false_iff_not] at hc
      exact hc hseen
    rw [if_neg hdead]
  | none =>
    have hseen : j ∉ issues.map Issue.id :=
      (reverse_find?_eq_none_iff issues j).mp hfind
    cases hl : lookup s j with
    | none => simp [hl]
    | some t =>
      have hjmem : j ∈ listIds s :=
        lookup_isSome_iff.mp (by simp [hl])
      have hdead : j ∈ (listIds (processAll cfg s issues)).filter
          (fun i' => !(decide (i' ∈ issues.map Issue.id))) :=
        List.mem_filter.mpr
          ⟨mem_listIds_processAll cfg issues s hjmem, by simp [hseen]⟩
      rw [if_pos hdead]

theorem listIds_syncPass (cfg : Config) (s : Store) (issues : List Issue) :
    listIds (syncPass cfg s issues) = listIds (processAll cfg s issues) := by
  unfold syncPass
  exact listIds_markDeletedT _ _

theorem seen_mem_listIds_processAll (cfg : Config) (s : Store) (issues : List Issue)
    {j : Nat} (h : j ∈ issues.map Issue.id) :
    j ∈ listIds (processAll cfg s issues) := by
  rw [← lookup_isSome_iff, lookup_processAll]
  cases hfind : issues.reverse.find? (fun i => i.id == j) with
  | some i => rfl
  | none => exact absurd h ((reverse_find?_eq_none_iff issues j).mp hfind)

/-! ### General helper lemmas -/

theorem foldl_invariant {α β : Type} (P : α → Prop) (f : α → β → α) :
    ∀ (l : List β) (a : α), P a → (∀ a' b, b ∈ l → P a' → P (f a' b)) →
      P (l.foldl f a)
  | [], _, ha, _ => ha
  | b :: l, a, ha, hstep =>
    foldl_invariant P f l (f a b) (hstep a b (List.mem_cons_self b l) ha)
      (fun a' b' hb' => hstep a' b' (List.mem_cons_of_mem b hb'))

theorem splitCRLF_boundary : ∀ (a b : JSStr), '\r' ∉ a →
    splitCRLF (a ++ '\r' :: '\n' :: b) = a :: splitCRLF b := by
  intro a
  induction a with
  | nil =>
    intro b _
    simp [splitCRLF]
  | cons c a' ih =>
    intro b hc
    have hcr : ¬ c = '\r' := fun h => hc (by simp [h])
    have hmem : '\r' ∉ a' := fun h => hc (by simp [h])
    cases a' with
    | nil =>
      simp [splitCRLF, hcr]
    | cons c2 a'' =>
      have ih' := ih b hmem
      simp only [List.cons_append] at ih' ⊢
      simp [splitCRLF, hcr, ih']

theorem pairwise_true {α : Type} : ∀ l : List α, l.Pairwise (fun _ _ => True)
  | [] => List.Pairwise.nil
  | _ :: l => List.Pairwise.cons (fun _ _ => trivial) (pairwise_true l)

theorem pairwise_orderedInsert_lex {α : Type} (le r : α → α → Prop) [DecidableRel le]
    (htot : ∀ a b, le a b ∨ le b a) (htr : ∀ {a b c}, le a b → le b c → le a c)
    (x : α) :
    ∀ l : List α, l.Pairwise (fun a b => le a b ∧ (le b a → r a b)) →
      (∀ y ∈ l, r x y) →
      (l.orderedInsert le x).Pairwise (fun a b => le a b ∧ (le b a → r a b)) := by
  intro l
  induction l with
  | nil =>
    intro _ _
    simp [List.orderedInsert]
  | cons b t iht =>
    intro hp hr
    rcases List.pairwise_cons.mp hp with ⟨hb, ht⟩
    rw [List.orderedInsert]
    by_cases hle : le x b
    · rw [if_pos hle]
      refine List.Pairwise.cons ?_ hp
      intro y hy
      rcases List.mem_cons.mp hy with rfl | hy'
      · exact ⟨hle, fun _ => hr y (List.mem_cons_self _ _)⟩
      · exact ⟨htr hle (hb y hy').1, fun _ => hr y (List.mem_cons_of_mem _ hy')⟩
    · rw [if_neg hle]
      refine List.Pairwise.cons ?_ (iht ht (fun y hy => hr y (List.mem_cons_of_mem _ hy)))
      intro y hy
      rcases (List.mem_orderedInsert le).mp hy with rfl | hy'
      · exact ⟨(htot y b).resolve_left hle, fun hxb => absurd hxb hle⟩
      · exact hb y hy'

/-- The recursive `processIssues` run, characterized as a function of the
feed: when every fetch resolves, it is exactly "upsert all pages'
issues, then reconcile once against the full seen-id list"; when a fetch
fails, it is exactly "upsert the pages committed so far" with no
reconciliation at all. -/
theorem runSync_eq (cfg : Config) :
    ∀ (rest : List FetchResult) (p : Page) (s : Store) (seen : List Nat),
      runSync cfg s seen p rest =
        match collectRun p rest with
        | some iss =>
          Outcome.completed
            (markDeletedT (processAll cfg s iss)
              ((listIds (processAll cfg s iss)).filter
                (fun i => !(decide (i ∈ seen ++ iss.map Issue.id)))))
        | none => Outcome.aborted (processAll cfg s (collectPrefix p rest)) := by
  intro rest
  induction rest with
  | nil =>
    intro p s seen
    rw [runSync.eq_def, collectRun.eq_def, collectPrefix.eq_def]
    by_cases hn : p.nextPageUrl.isSome
    · simp [hn]
    · simp [hn]
  | cons fr rest' ih =>
    intro p s seen
    rw [runSync.eq_def, collectRun.eq_def, collectPrefix.eq_def]
    by_cases hn : p.nextPageUrl.isSome
    · cases fr with
      | err => simp [hn]
      | ok q =>
        simp only [hn, if_true]
        rw [ih q (processAll cfg s p.items) (seen ++ p.items.map Issue.id)]
        cases hcr : collectRun q rest' with
        | none => simp [hcr, processAll_append]
        | some iss' =>
          simp [hcr, processAll_append, List.map_append, List.append_assoc]
    · simp [hn]

theorem scanLabels_label_isSome (labelString : JSStr) (m : Meta) (ls : List GHLabel)
    (h : m.color.isSome → m.label.isSome) :
    (scanLabels labelString m ls).color.isSome →
      (scanLabels labelString m ls).label.isSome := by
  refine foldl_invariant (fun m' => m'.color.isSome → m'.label.isSome) _ ls m h ?_
  intro m' aLabel _ hm'
  by_cases hname : aLabel.name == labelString
  · cases aLabel.color <;> simp [hname]
  · simp [hname]
    exact hm'

theorem processLine_label_isSome (cfg : Config) (labels : Option (List GHLabel))
    (m : Meta) (line : JSStr) (h : m.color.isSome → m.label.isSome) :
    (processLine cfg labels m line).color.isSome →
      (processLine cfg labels m line).label.isSome := by
  simp only [processLine]
  repeat' first
    | exact h
    | apply scanLabels_label_isSome
    | split

theorem extractMeta_label_isSome (cfg : Config) (issue : Issue) :
    (extractMeta cfg issue).color.isSome → (extractMeta cfg issue).label.isSome := by
  unfold extractMeta
  cases issue.body with
  | none => simp
  | some b =>
    refine foldl_invariant (fun m' : Meta => m'.color.isSome → m'.label.isSome) _ _ _
      (by simp) ?_
    intro m' line _ hm'
    exact processLine_label_isSome cfg issue.labels m' line hm'

theorem pairwise_insertionSort_lex {α : Type} (le r : α → α → Prop) [DecidableRel le]
    (htot : ∀ a b, le a b ∨ le b a) (htr : ∀ {a b c}, le a b → le b c → le a c) :
    ∀ l : List α, l.Pairwise r →
      (l.insertionSort le).Pairwise (fun a b => le a b ∧ (le b a → r a b)) := by
  intro l
  induction l with
  | nil =>
    intro _
    simp [List.insertionSort]
  | cons x t ih =>
    intro hl
    rcases List.pairwise_cons.mp hl with ⟨hx, ht⟩
    rw [List.insertionSort]
    exact pairwise_orderedInsert_lex le r htot htr x _ (ih ht)
      (fun y hy => hx y ((List.mem_insertionSort le).mp hy))

theorem optStrLe_refl : ∀ a : Option JSStr, optStrLe a a
  | none => trivial
  | some x => le_refl x

theorem optStrLe_total : ∀ a b : Option JSStr, optStrLe a b ∨ optStrLe b a
  | none, _ => Or.inl trivial
  | some _, none => Or.inr trivial
  | some x, some y => le_total x y

theorem optStrLe_trans :
    ∀ {a b c : Option JSStr}, optStrLe a b → optStrLe b c → optStrLe a c
  | none, _, _, _, _ => trivial
  | some _, none, _, h, _ => h.elim
  | some _, some _, none, _, h => h.elim
  | some _, some _, some _, h1, h2 => le_trans h1 h2

theorem markDeleted_eq_of_sub :
    ∀ (ids : List Nat) (s : Store), (∀ i ∈ ids, i ∈ listIds s) →
      markDeleted s ids = some (markDeletedT s ids) := by
  intro ids
  induction ids with
  | nil =>
    intro s _
    rfl
  | cons i is ih =>
    intro s h
    have hpres : i ∈ listIds s := h i (List.mem_cons_self _ _)
    rcases Option.isSome_iff_exists.mp (lookup_isSome_iff.mpr hpres) with ⟨t, ht⟩
    have e1 : markDeleted s (i :: is) =
        markDeleted
          (s.map (fun u => if u.id == i then { u with isDeleted := true } else u)) is := by
      simp only [markDeleted, List.foldl_cons, Option.some_bind, ht]
    rw [e1, markDeletedT_cons]
    refine ih _ ?_
    intro i' hi'
    rw [listIds_map_of_id (fun u => by by_cases hu : u.id = i <;> simp [hu])]
    exact h i' (List.mem_cons_of_mem _ hi')

/-! ### Claims -/

/-- C1: running a full sync pass twice in a row against the same unchanged
remote feed leaves the store in a state identical to running it once — for
every issue id the stored record is the same after the second pass as after
the first, and the list of stored ids is unchanged (no duplicates, no
field drift). -/
theorem c1_sync_idempotent (cfg : Config) (s : Store) (issues : List Issue) :
    (∀ j : Nat,
        lookup (syncPass cfg (syncPass cfg s issues) issues) j
          = lookup (syncPass cfg s issues) j)
    ∧ listIds (syncPass cfg (syncPass cfg s issues) issues)
        = listIds (syncPass cfg s issues) := by
  constructor
  · intro j
    rw [lookup_syncPass, lookup_syncPass]
    cases hfind : issues.reverse.find? (fun i => i.id == j) with
    | some i => rfl
    | none =>
      cases hl : lookup s j with
      | none => rfl
      | some t => simp [setDeleted_idem]
  · rw [listIds_syncPass]
    exact listIds_processAll_of_sub cfg issues (syncPass cfg s issues)
      (fun i hi => by
        rw [listIds_syncPass]
        exact seen_mem_listIds_processAll cfg s issues
          (List.mem_map_of_mem Issue.id hi))

/-- C2: tombstone reconciliation — with a prior store holding ids 1, 2, 3
and a sync pass whose feed yields exactly ids 1 and 3, the pass leaves id 2
tombstoned (`isDeleted = true`), ids 1 and 3 live (`isDeleted = false`),
and physically removes no record. -/
theorem c2_tombstone_reconciliation (cfg : Config) (s : Store) (i1 i3 : Issue)
    (h1 : 1 ∈ listIds s) (h2 : 2 ∈ listIds s) (h3 : 3 ∈ listIds s)
    (hid1 : i1.id = 1) (hid3 : i3.id = 3) :
    (∃ t, lookup (syncPass cfg s [i1, i3]) 2 = some t ∧ t.isDeleted = true)
    ∧ (∃ t, lookup (syncPass cfg s [i1, i3]) 1 = some t ∧ t.isDeleted = false)
    ∧ (∃ t, lookup (syncPass cfg s [i1, i3]) 3 = some t ∧ t.isDeleted = false)
    ∧ (∀ j ∈ listIds s, j ∈ listIds (syncPass cfg s [i1, i3])) := by
  have hrev : ([i1, i3] : List Issue).reverse = [i3, i1] := rfl
  refine ⟨?_, ?_, ?_, ?_⟩
  · rcases Option.isSome_iff_exists.mp (lookup_isSome_iff.mpr h2) with ⟨t0, ht0⟩
    refine ⟨{ t0 with isDeleted := true }, ?_, rfl⟩
    rw [lookup_syncPass, hrev,
      List.find?_cons_of_neg _ (by simp [hid3]),
      List.find?_cons_of_neg _ (by simp [hid1])]
    rw [show ([] : List Issue).find? (fun i => i.id == 2) = none from rfl, ht0]
    rfl
  · refine ⟨mkTask cfg i1, ?_, mkTask_isDeleted cfg i1⟩
    rw [lookup_syncPass, hrev,
      List.find?_cons_of_neg _ (by simp [hid3]),
      List.find?_cons_of_pos _ (by simp [hid1])]
  · refine ⟨mkTask cfg i3, ?_, mkTask_isDeleted cfg i3⟩
    rw [lookup_syncPass, hrev, List.find?_cons_of_pos _ (by simp [hid3])]
  · intro j hj
    rw [listIds_syncPass]
    exact mem_listIds_processAll cfg [i1, i3] s hj

/-- Witness for C2 at a concrete store and feed. -/
theorem c2_tombstone_reconciliation_witness :
    (∃ t, lookup (syncPass defaultConfig [sampleTask 1, sampleTask 2, sampleTask 3]
        [sampleIssue 1, sampleIssue 3]) 2 = some t ∧ t.isDeleted = true)
    ∧ (∃ t, lookup (syncPass defaultConfig [sampleTask 1, sampleTask 2, sampleTask 3]
        [sampleIssue 1, sampleIssue 3]) 1 = some t ∧ t.isDeleted = false)
    ∧ (∃ t, lookup (syncPass defaultConfig [sampleTask 1, sampleTask 2, sampleTask 3]
        [sampleIssue 1, sampleIssue 3]) 3 = some t ∧ t.isDeleted = false)
    ∧ (∀ j ∈ listIds [sampleTask 1, sampleTask 2, sampleTask 3],
        j ∈ listIds (syncPass defaultConfig [sampleTask 1, sampleTask 2, sampleTask 3]
          [sampleIssue 1, sampleIssue 3])) :=
  c2_tombstone_reconciliation defaultConfig [sampleTask 1, sampleTask 2, sampleTask 3]
    (sampleIssue 1) (sampleIssue 3) (by decide) (by decide) (by decide) rfl rfl

/-- C3: the upsert is keyed on `id` and replaces the full record — an id
already present is updated in place (the id list does not grow), the stored
record becomes exactly the freshly built task (every field overwritten)
whose `isDeleted` is `false`, and a tombstoned id that reappears in a sync
pass's feed ends the pass with `isDeleted = false`. -/
theorem c3_upsert_full_replace (cfg : Config) (s : Store) (issue : Issue)
    (h : issue.id ∈ listIds s) :
    listIds (upsert s (mkTask cfg issue)) = listIds s
    ∧ lookup (upsert s (mkTask cfg issue)) issue.id = some (mkTask cfg issue)
    ∧ (mkTask cfg issue).isDeleted = false
    ∧ (∀ issues : List Issue, issue.id ∈ issues.map Issue.id →
        ∃ t, lookup (syncPass cfg s issues) issue.id = some t ∧ t.isDeleted = false) := by
  refine ⟨?_, ?_, rfl, ?_⟩
  · rw [listIds_upsert, if_pos (by rw [mkTask_id]; exact h)]
  · rw [lookup_upsert, if_pos (mkTask_id cfg issue)]
  · intro issues hseen
    cases hfind : issues.reverse.find? (fun i => i.id == issue.id) with
    | some i =>
      exact ⟨mkTask cfg i, by rw [lookup_syncPass, hfind], mkTask_isDeleted cfg i⟩
    | none =>
      exact absurd hseen ((reverse_find?_eq_none_iff issues issue.id).mp hfind)

/-- Witness for C3 at a concrete store, issue and feed. -/
theorem c3_upsert_full_replace_witness :
    listIds (upsert [sampleTask 5] (mkTask defaultConfig (sampleIssue 5)))
      = listIds [sampleTask 5]
    ∧ lookup (upsert [sampleTask 5] (mkTask defaultConfig (sampleIssue 5))) 5
        = some (mkTask defaultConfig (sampleIssue 5))
    ∧ (mkTask defaultConfig (sampleIssue 5)).isDeleted = false
    ∧ (∃ t, lookup (syncPass defaultConfig [sampleTask 5] [sampleIssue 5]) 5
        = some t ∧ t.isDeleted = false) :=
  have h := c3_upsert_full_replace defaultConfig [sampleTask 5] (sampleIssue 5) (by decide)
  ⟨h.1, h.2.1, h.2.2.1, h.2.2.2 [sampleIssue 5] (by decide)⟩

/-- C9 counterexample: the claim says ids not present in the store are
ignored without error, but the tombstone loop of lines 158-164 reads
`realm.objectForPrimaryKey` — `undefined` for an absent id — and assigns
`task.isDeleted = true`, which throws and cancels the write transaction, so
the batch produces no store at all (`none`) instead of succeeding
unchanged. -/
theorem c9_counterexample : markDeleted [sampleTask 1] [2] = none := by decide

/-- C9 (amended): `markDeleted` transitions every listed id that exists to
`isDeleted = true` in one batch and leaves other records unchanged, and it
succeeds exactly when every listed id is present — in the sync path the id
list is always a subset of the stored ids; an absent id would make the
write fail rather than be ignored. -/
theorem c9_markDeleted_amended (s : Store) (ids : List Nat)
    (h : ∀ i ∈ ids, i ∈ listIds s) :
    markDeleted s ids = some (markDeletedT s ids)
    ∧ (∀ i ∈ ids, ∃ t, lookup (markDeletedT s ids) i = some t ∧ t.isDeleted = true)
    ∧ (∀ j : Nat, j ∉ ids → lookup (markDeletedT s ids) j = lookup s j) := by
  refine ⟨markDeleted_eq_of_sub ids s h, ?_, ?_⟩
  · intro i hi
    rcases Option.isSome_iff_exists.mp (lookup_isSome_iff.mpr (h i hi)) with ⟨t, ht⟩
    refine ⟨{ t with isDeleted := true }, ?_, rfl⟩
    rw [lookup_markDeletedT, if_pos hi, ht]
    rfl
  · intro j hj
    rw [lookup_markDeletedT, if_neg hj]

/-- Witness for the amended C9 at a concrete store and id list. -/
theorem c9_markDeleted_amended_witness :
    markDeleted [sampleTask 1, sampleTask 2] [2]
      = some (markDeletedT [sampleTask 1, sampleTask 2] [2])
    ∧ (∃ t, lookup (markDeletedT [sampleTask 1, sampleTask 2] [2]) 2
        = some t ∧ t.isDeleted = true)
    ∧ lookup (markDeletedT [sampleTask 1, sampleTask 2] [2]) 1
        = lookup [sampleTask 1, sampleTask 2] 1 :=
  have h := c9_markDeleted_amended [sampleTask 1, sampleTask 2] [2] (by decide)
  ⟨h.1, h.2.1 2 (by decide), h.2.2 1 (by decide)⟩

/-- C4 counterexample: a label keyword that matches a label entry with no
defined color yields a task whose `label` is set while `color` stays null
(lines 104-108 set `label` unconditionally on a name match but guard
`color` behind `utilities.isString(aLabel.color)`), so "set together or
not at all" fails. -/
theorem c4_counterexample :
    (mkTask defaultConfig issueLabelNoColor).label = some "bug".toList
    ∧ (mkTask defaultConfig issueLabelNoColor).color = none := by
  exact ⟨by decide, by decide⟩

/-- C4 (amended): `color` is only ever set together with `label` — a task
with a non-null `color` also has a non-null `label` (equivalently, a null
`label` forces a null `color`) — but the converse fails: a label keyword
matching a label entry with no defined color produces `label` set and
`color` null. -/
theorem c4_color_implies_label (cfg : Config) (issue : Issue)
    (h : (mkTask cfg issue).color ≠ none) :
    (mkTask cfg issue).label ≠ none := by
  have hc : (extractMeta cfg issue).color.isSome := Option.ne_none_iff_isSome.mp h
  exact Option.ne_none_iff_isSome.mpr (extractMeta_label_isSome cfg issue hc)

/-- Witness for the amended C4 at an issue whose matched label has a
defined color. -/
theorem c4_color_implies_label_witness :
    (mkTask defaultConfig issueLabelColor).color ≠ none
    ∧ (mkTask defaultConfig issueLabelColor).label ≠ none :=
  ⟨by decide, c4_color_implies_label defaultConfig issueLabelColor (by decide)⟩

/-- C5: `queryForChart` returns exactly the tasks with `isDeleted = false`,
`state = "open"` and a present `end_date` (tasks failing any condition are
excluded), ordered primarily by `label` ascending and secondarily by
`start_date` descending within each label group. -/
theorem c5_queryForChart_filter_sort (s : Store) :
    (queryForChart s).Perm (s.filter chartPred)
    ∧ (∀ t ∈ queryForChart s,
        t.isDeleted = false ∧ t.state = "open".toList ∧ t.end_date ≠ none)
    ∧ (∀ t ∈ s, t.isDeleted = false → t.state = "open".toList →
        t.end_date ≠ none → t ∈ queryForChart s)
    ∧ (queryForChart s).Pairwise
        (fun a b => optStrLe a.label b.label
          ∧ (a.label = b.label → b.start_date ≤ a.start_date)) := by
  have hperm : (queryForChart s).Perm (s.filter chartPred) :=
    (List.perm_insertionSort labelAsc _).trans (List.perm_insertionSort dateDesc _)
  refine ⟨hperm, ?_, ?_, ?_⟩
  · intro t ht
    have hf : t ∈ s.filter chartPred := hperm.mem_iff.mp ht
    have hp := (List.mem_filter.mp hf).2
    simp only [chartPred, Bool.and_eq_true, beq_iff_eq] at hp
    exact ⟨hp.1.1, hp.1.2, Option.ne_none_iff_isSome.mpr hp.2⟩
  · intro t hts hd hst he
    refine hperm.mem_iff.mpr (List.mem_filter.mpr ⟨hts, ?_⟩)
    simp only [chartPred, Bool.and_eq_true, beq_iff_eq]
    exact ⟨⟨hd, hst⟩, Option.ne_none_iff_isSome.mp he⟩
  · have hdate : ((s.filter chartPred).insertionSort dateDesc).Pairwise dateDesc := by
      have h := pairwise_insertionSort_lex dateDesc (fun _ _ => True)
        (fun a b => Int.le_total b.start_date a.start_date)
        (fun hab hbc => le_trans hbc hab)
        (s.filter chartPred) (pairwise_true _)
      exact h.imp (fun hx => hx.1)
    have h2 := pairwise_insertionSort_lex labelAsc dateDesc
      (fun a b => optStrLe_total a.label b.label)
      (fun hab hbc => optStrLe_trans hab hbc)
      _ hdate
    refine h2.imp (fun hx => ⟨hx.1, fun heq => hx.2 ?_⟩)
    show optStrLe _ _
    rw [heq]
    exact optStrLe_refl _

/-- Witness for C5 at a concrete scrambled store. -/
theorem c5_queryForChart_filter_sort_witness :
    (queryForChart chartStore).Perm (chartStore.filter chartPred)
    ∧ (∀ t ∈ queryForChart chartStore,
        t.isDeleted = false ∧ t.state = "open".toList ∧ t.end_date ≠ none)
    ∧ (∀ t ∈ chartStore, t.isDeleted = false → t.state = "open".toList →
        t.end_date ≠ none → t ∈ queryForChart chartStore)
    ∧ (queryForChart chartStore).Pairwise
        (fun a b => optStrLe a.label b.label
          ∧ (a.label = b.label → b.start_date ≤ a.start_date)) :=
  c5_queryForChart_filter_sort chartStore

/-- C6: tombstone reconciliation runs exactly once, after the last page —
a sync run is `completed` (with the one reconciliation over the full seen
id list, i.e. `syncPass`) precisely when every fetch resolved through a
final page, and a failed page fetch leaves an `aborted` run holding just
the committed upserts of the visited pages; upserting never tombstones, so
any record marked deleted in an aborted run's store was already marked
identically before the run. -/
theorem c6_reconcile_only_after_last_page (cfg : Config) (s : Store) (p : Page)
    (rest : List FetchResult) :
    (runSync cfg s [] p rest =
      match collectRun p rest with
      | some iss => Outcome.completed (syncPass cfg s iss)
      | none => Outcome.aborted (processAll cfg s (collectPrefix p rest)))
    ∧ (∀ (iss : List Issue) (j : Nat) (t : Task),
        lookup (processAll cfg s iss) j = some t → t.isDeleted = true →
        lookup s j = some t) := by
  constructor
  · rw [runSync_eq]
    cases collectRun p rest with
    | some iss => rfl
    | none => rfl
  · intro iss j t hlk hdel
    rw [lookup_processAll] at hlk
    cases hfind : iss.reverse.find? (fun i => i.id == j) with
    | some i =>
      rw [hfind] at hlk
      have hmk : mkTask cfg i = t := Option.some.inj hlk
      rw [← hmk, mkTask_isDeleted] at hdel
      exact absurd hdel (by decide)
    | none =>
      rw [hfind] at hlk
      exact hlk

/-- Witness for C6: a one-page run over a store holding a tombstoned
record. -/
theorem c6_reconcile_only_after_last_page_witness :
    (runSync defaultConfig [deletedTask5] [] { items := [], nextPageUrl := none } [] =
      match collectRun { items := [], nextPageUrl := none } [] with
      | some iss => Outcome.completed (syncPass defaultConfig [deletedTask5] iss)
      | none => Outcome.aborted (processAll defaultConfig [deletedTask5]
          (collectPrefix { items := [], nextPageUrl := none } [])))
    ∧ lookup [deletedTask5] 5 = some deletedTask5 :=
  have h := c6_reconcile_only_after_last_page defaultConfig [deletedTask5]
    { items := [], nextPageUrl := none } []
  ⟨h.1, h.2 [] 5 deletedTask5 (by decide) (by decide)⟩

/-- C7: a keyword is honored only at the very start of a line — a line
starting with none of the four configured keywords leaves the extraction
state unchanged; concretely, a body whose due-date keyword opens the line
yields that parsed date as `end_date`, while the same keyword text sitting
mid-line contributes nothing. -/
theorem c7_keyword_line_start_only (cfg : Config) (labels : Option (List GHLabel))
    (m : Meta) (line : JSStr)
    (h1 : ¬ jsStartsWith line cfg.START_DATE_STRING = true)
    (h2 : ¬ jsStartsWith line cfg.DUE_DATE_STRING = true)
    (h3 : ¬ jsStartsWith line cfg.LABEL_STRING = true)
    (h4 : ¬ jsStartsWith line cfg.PROGRESS_STRING = true) :
    processLine cfg labels m line = m
    ∧ (mkTask defaultConfig issueDueAtStart).end_date = some 20200102
    ∧ (mkTask defaultConfig issueDueMid).end_date = none := by
  refine ⟨?_, by decide, by decide⟩
  simp [processLine, h1, h2, h3, h4]

/-- Witness for C7 at a concrete non-keyword line. -/
theorem c7_keyword_line_start_only_witness :
    processLine defaultConfig none
      { startDate := 0, dueDate := none, label := none, color := none, progress := none }
      "hello".toList
      = { startDate := 0, dueDate := none, label := none, color := none, progress := none }
    ∧ (mkTask defaultConfig issueDueAtStart).end_date = some 20200102
    ∧ (mkTask defaultConfig issueDueMid).end_date = none :=
  c7_keyword_line_start_only defaultConfig none
    { startDate := 0, dueDate := none, label := none, color := none, progress := none }
    "hello".toList (by decide) (by decide) (by decide) (by decide)

/-- C8 counterexample: the source splits the body only on the exact CR LF
sequence (`issue.body.split('\r\n')`, line 83), so a due-date line preceded
by a bare LF is not recognized while the same line preceded by CR LF is —
the two bodies do not extract the same `end_date`, contradicting
"recognized regardless of which line-break sequence". -/
theorem c8_counterexample :
    ¬ ((mkTask defaultConfig issueDueLF).end_date
        = (mkTask defaultConfig issueDueCRLF).end_date) := by
  decide

/-- C8 (amended): the body is split into lines exactly at occurrences of
the two-character sequence CR LF — any CR-free text followed by CR LF forms
one line of the split — and every resulting line is tested against the
keywords: the due-date line preceded by CR LF is extracted, the one
preceded by a bare LF is not. -/
theorem c8_split_on_crlf (a b : JSStr) (h : '\r' ∉ a) :
    splitCRLF (a ++ '\r' :: '\n' :: b) = a :: splitCRLF b
    ∧ (mkTask defaultConfig issueDueCRLF).end_date = some 20200102
    ∧ (mkTask defaultConfig issueDueLF).end_date = none :=
  ⟨splitCRLF_boundary a b h, by decide, by decide⟩

/-- Witness for the amended C8 at a concrete split. -/
theorem c8_split_on_crlf_witness :
    splitCRLF ("x".toList ++ '\r' :: '\n' :: "Due Date:2020-01-02".toList)
      = "x".toList :: splitCRLF "Due Date:2020-01-02".toList
    ∧ (mkTask defaultConfig issueDueCRLF).end_date = some 20200102
    ∧ (mkTask defaultConfig issueDueLF).end_date = none :=
  c8_split_on_crlf "x".toList "Due Date:2020-01-02".toList (by decide)

/-- C10: the issue-URL lookup surfaces an unknown id as an error result
rather than a value (the `objectForPrimaryKey` miss makes the
`task.html_url` access throw, which the embedding returns as
`Except.error`), and a present id yields that task's `html_url`. -/
theorem c10_getIssueURL_lookup (s : Store) (taskId : Nat) :
    (taskId ∉ listIds s → getIssueURL s taskId = Except.error ())
    ∧ (∀ t : Task, lookup s taskId = some t →
        getIssueURL s taskId = Except.ok t.html_url) := by
  constructor
  · intro h
    unfold getIssueURL
    cases hl : lookup s taskId with
    | none => rfl
    | some t => exact absurd (lookup_isSome_iff.mp (by simp [hl])) h
  · intro t ht
    unfold getIssueURL
    rw [ht]

/-- Witness for C10 at a concrete store: id 2 is absent, id 1 present. -/
theorem c10_getIssueURL_lookup_witness :
    getIssueURL [sampleTask 1] 2 = Except.error ()
    ∧ getIssueURL [sampleTask 1] 1 = Except.ok (sampleTask 1).html_url :=
  ⟨(c10_getIssueURL_lookup [sampleTask 1] 2).1 (by decide),
   (c10_getIssueURL_lookup [sampleTask 1] 1).2 (sampleTask 1) (by decide)⟩

end GithubGantt
